import Mathlib

/-!
Shallow embedding of the parsing core of the
prometheus-kafka-consumer-group-exporter repository (file kafka/parsing.go).

The Go code is modelled faithfully:

* `strings.Split(output, "\n")`  →  `splitLines`
* `strings.Contains`             →  `goContains`
* `strconv.ParseInt(v, 10, 64)`  →  `goParseInt64` (base-10, optional sign,
  64-bit signed range check; `none` on syntax or range error)
* the compiled regular expressions of the three built-in format parsers are
  embedded as token lists (`Tok`): every pattern used by the repository is a
  sequence of literal runs and greedy `+` repetitions of one-character
  classes.  `matchToks` implements Go's leftmost-first (backtracking-greedy)
  submatch semantics for such token sequences, and `searchFrom` the leftmost
  search of `FindStringSubmatch` / `MatchString`.
* Go functions that can return an error pair `(v, err)` are modelled with the
  pair itself (`GoReturn`), and a Go runtime panic (out-of-range slice index)
  is modelled by the dedicated `GoReturn.panic` constructor / `Option.none`.
-/

/-- Result of a Go function returning `(value, error)`; `panic` models a Go
runtime panic aborting the call. -/
inductive GoReturn (α : Type) where
  | panic : GoReturn α
  | ret : α → Option String → GoReturn α
deriving DecidableEq, Repr

/-- Model of `exporter.PartitionInfo` from the repository. -/
structure PartitionInfo where
  topic : String
  partitionID : String
  currentOffset : Int
  lag : Int
  clientID : String
  consumerAddress : String
deriving DecidableEq, Repr

/-! ### strings.Split on the line terminator -/

/-- Accumulating splitter: `acc` holds the current (reversed) line. -/
def splitLinesAux : List Char → List Char → List String
  | [], acc => [String.mk acc.reverse]
  | c :: cs, acc =>
      if c = '\n' then String.mk acc.reverse :: splitLinesAux cs []
      else splitLinesAux cs (c :: acc)

/-- Go `strings.Split(s, "\n")`: always returns at least one (possibly empty)
element. -/
def splitLines (s : String) : List String := splitLinesAux s.data []

/-! ### strings.Contains -/

/-- Does `needle` occur as a contiguous substring of `hay`? -/
def hasSubstringAux : List Char → List Char → Bool
  | hay, needle =>
      if needle.isPrefixOf hay then true
      else
        match hay with
        | [] => false
        | _ :: t => hasSubstringAux t needle

/-- Go `strings.Contains(s, sub)`. -/
def goContains (s sub : String) : Bool := hasSubstringAux s.data sub.data

/-! ### strconv.ParseInt(value, 10, 64) -/

/-- Is `c` an ASCII decimal digit? (`\d` of RE2, and the digits accepted by
`strconv.ParseInt` in base 10.) -/
def goIsDigit (c : Char) : Bool := '0' ≤ c && c ≤ '9'

/-- Accumulate the base-10 value of a digit run; `none` on a non-digit. -/
def digitsValAux : List Char → Nat → Option Nat
  | [], acc => some acc
  | c :: cs, acc =>
      if goIsDigit c then digitsValAux cs (acc * 10 + (c.toNat - 48))
      else none

/-- Value of a non-empty all-digit run, `none` otherwise. -/
def digitsVal : List Char → Option Nat
  | [] => none
  | c :: cs => digitsValAux (c :: cs) 0

/-- Go `strconv.ParseInt(s, 10, 64)`: optional single leading sign, then at
least one decimal digit; `none` on a syntax error or on 64-bit signed
overflow (Go reports `ErrRange` there, which the repository's `parseLong`
turns into the sentinel). -/
def goParseInt64 (s : String) : Option Int :=
  match s.data with
  | [] => none
  | '+' :: rest =>
      match digitsVal rest with
      | some n => if n ≤ 9223372036854775807 then some (Int.ofNat n) else none
      | none => none
  | '-' :: rest =>
      match digitsVal rest with
      | some n => if n ≤ 9223372036854775808 then some (-(Int.ofNat n)) else none
      | none => none
  | c :: rest =>
      match digitsVal (c :: rest) with
      | some n => if n ≤ 9223372036854775807 then some (Int.ofNat n) else none
      | none => none

/-- Function `parseLong` from kafka/parsing.go: the `Bool` is "the returned error was
non-nil"; on failure Go returns `-1` together with the error. -/
def parseLong (value : String) : Int × Bool :=
  match goParseInt64 value with
  | some v => (v, false)
  | none => (-1, true)

/-! ### The regular-expression engine

Every pattern compiled by kafka/parsing.go is a sequence of literal runs and
greedy `+` repetitions of a one-character class, some of which are named
capture groups.  `Tok` represents one such element. -/

/-- One element of a compiled pattern: a literal run, or a greedy `+` over a
character class (with `name = some n` when it is the named capture group
`(?P<n>…+)`). -/
inductive Tok where
  | lit : String → Tok
  | plus : (Char → Bool) → Option String → Tok

/-- The capture-group name of a token, if it is a named group. -/
def Tok.nameOf : Tok → Option String
  | .plus _ n => n
  | .lit _ => none

/-- A compiled pattern: its token sequence. -/
structure Regexp where
  toks : List Tok

/-- Go `Regexp.SubexpNames()`: index 0 is the whole match (empty name), then the
group names in order of appearance. -/
def Regexp.subexpNames (r : Regexp) : List String :=
  "" :: r.toks.filterMap Tok.nameOf

/-- Backtracking attempt for a greedy `+`: try to let the repetition consume
`k, k-1, …, 1` characters of `s` (longest first — leftmost-first semantics),
continuing with `ih` on the rest; record the consumed run as a capture when
`name` is set. -/
def tryLens (ih : List Char → Option (Nat × List String)) (name : Option String)
    (s : List Char) : Nat → Option (Nat × List String)
  | 0 => none
  | k + 1 =>
      match ih (s.drop (k + 1)) with
      | some q =>
          some (k + 1 + q.1,
            match name with
            | some _ => String.mk (s.take (k + 1)) :: q.2
            | none => q.2)
      | none => tryLens ih name s k

/-- Match a token sequence at the start of `s` (the match need not reach the
end of `s`).  Returns the number of characters consumed and the list of
captured substrings in group order.  Implemented with `List.rec` so that it
reduces definitionally on concrete inputs. -/
def matchToks (toks : List Tok) : List Char → Option (Nat × List String) :=
  List.rec (motive := fun _ => List Char → Option (Nat × List String))
    (fun _ => some (0, []))
    (fun tok _ ih s =>
      match tok with
      | Tok.lit l =>
          if l.data.isPrefixOf s then
            Option.map (fun q => (l.data.length + q.1, q.2))
              (ih (s.drop l.data.length))
          else none
      | Tok.plus cls name => tryLens ih name s (s.takeWhile cls).length)
    toks

/-- Leftmost search: try a match starting at every position of `s`, earliest
first (Go's `FindStringSubmatch` position semantics).  Returns the matched
run of characters and the captures. -/
def searchFrom (toks : List Tok) (s : List Char) : Option (List Char × List String) :=
  match matchToks toks s with
  | some q => some (s.take q.1, q.2)
  | none =>
      match s with
      | [] => none
      | _ :: t => searchFrom toks t

/-- Go `Regexp.FindStringSubmatch(line)`: `none` when there is no match (Go
returns a nil slice), otherwise the whole match followed by the captured
groups. -/
def goFindSubmatch (r : Regexp) (line : String) : Option (List String) :=
  Option.map (fun q => String.mk q.1 :: q.2) (searchFrom r.toks line.data)

/-- Go `Regexp.MatchString(s)`. -/
def goMatchString (r : Regexp) (s : String) : Bool :=
  (searchFrom r.toks s.data).isSome

/-- The nil-slice view of `FindStringSubmatch` used by `parseLine`: Go stores
a nil slice when there is no match, and indexing it panics. -/
def goMatches (r : Regexp) (line : String) : List String :=
  match goFindSubmatch r line with
  | some ms => ms
  | none => []

/-! ### The Go map `indexByName` (string → int, zero value 0) -/

/-- Insert/overwrite a key in an association list (Go map assignment). -/
def mapInsert : List (String × Nat) → String → Nat → List (String × Nat)
  | [], k, v => [(k, v)]
  | (k1, v1) :: rest, k, v =>
      if k1 = k then (k, v) :: rest else (k1, v1) :: mapInsert rest k v

/-- Go map lookup without the `ok` flag: missing keys give the zero value 0. -/
def mapGet : List (String × Nat) → String → Nat
  | [], _ => 0
  | (k1, v) :: rest, k => if k1 = k then v else mapGet rest k

/-- Go's `_, exists := m[k]` membership test. -/
def mapHas : List (String × Nat) → String → Bool
  | [], _ => false
  | (k1, _) :: rest, k => if k1 = k then true else mapHas rest k

/-- Loop `for i, name := range line.SubexpNames()` assigning `indexByName[name] = i`. -/
def buildIndexAux : List String → Nat → List (String × Nat) → List (String × Nat)
  | [], _, m => m
  | n :: ns, i, m => buildIndexAux ns (i + 1) (mapInsert m n i)

/-- The `indexByName` map built by `newRegexpParser`. -/
def buildIndex (names : List String) : List (String × Nat) :=
  buildIndexAux names 0 []

/-! ### regexpParser -/

/-- Structure `regexpParser` from kafka/parsing.go. -/
structure RegexpParser where
  header : Regexp
  line : Regexp
  indexByName : List (String × Nat)

/-- The six field names `newRegexpParser` requires, in source order. -/
def requiredFields : List String :=
  ["topic", "partitionId", "currentOffset", "lag", "clientId", "consumerAddress"]

/-- Constructor `newRegexpParser`: build `indexByName` from the line pattern's group
names, and fail construction on the first required field that is absent. -/
def newRegexpParser (header line : Regexp) : Except String RegexpParser :=
  let indexByName := buildIndex line.subexpNames
  match requiredFields.find? (fun f => !(mapHas indexByName f)) with
  | some f => Except.error ("line regexp missing '" ++ f ++ "' capturing group")
  | none => Except.ok ⟨header, line, indexByName⟩

/-- Method `regexpParser.parseLine`.  Go computes
`matches := p.line.FindStringSubmatch(line)` (nil when the line does not
match) and then indexes `matches` unconditionally; an out-of-range index is a
runtime panic, modelled by `none`.  On success Go always returns a nil error
(the numeric-conversion errors are only logged), modelled by the literal
`Option.none` in the second component. -/
def RegexpParser.parseLine (p : RegexpParser) (line : String) :
    Option (PartitionInfo × Option String) :=
  let ms := goMatches p.line line
  match ms[mapGet p.indexByName "currentOffset"]?,
        ms[mapGet p.indexByName "lag"]?,
        ms[mapGet p.indexByName "topic"]?,
        ms[mapGet p.indexByName "partitionId"]?,
        ms[mapGet p.indexByName "clientId"]?,
        ms[mapGet p.indexByName "consumerAddress"]? with
  | some coStr, some lagStr, some topic, some pid, some cid, some addr =>
      some ({ topic := topic, partitionID := pid,
              currentOffset := (parseLong coStr).1,
              lag := (parseLong lagStr).1,
              clientID := cid, consumerAddress := addr }, none)
  | _, _, _, _, _, _ => none

/-- The per-line loop of `regexpParser.Parse`: stop at the first non-nil
error (returning the records accumulated so far), propagate a panic. -/
def parseLoop (p : RegexpParser) : List String → GoReturn (List PartitionInfo)
  | [] => GoReturn.ret [] none
  | l :: ls =>
      match p.parseLine l with
      | none => GoReturn.panic
      | some (_, some e) => GoReturn.ret [] (some e)
      | some (info, none) =>
          match parseLoop p ls with
          | GoReturn.panic => GoReturn.panic
          | GoReturn.ret vs err => GoReturn.ret (info :: vs) err

/-- Method `regexpParser.Parse`: split into lines, reject an empty line list, check
the header fingerprint on line 0, then parse the remaining lines. -/
def RegexpParser.Parse (p : RegexpParser) (output : String) :
    GoReturn (List PartitionInfo) :=
  match splitLines output with
  | [] => GoReturn.ret [] (some "empty output")
  | headerLine :: dataLines =>
      if goMatchString p.header headerLine then parseLoop p dataLines
      else GoReturn.ret [] (some "incorrect header")

/-! ### The three built-in format definitions -/

/-- Class `\s` of RE2: `[\t\n\f\r ]`. -/
def goIsSpace (c : Char) : Bool :=
  c = ' ' || c = '\t' || c = '\n' || c = '\x0c' || c = '\r'

/-- Class `\S` of RE2. -/
def goNonSpace (c : Char) : Bool := !(goIsSpace c)

/-- Class `.` of RE2 (no `s` flag): any character except the line terminator. -/
def goDot (c : Char) : Bool := !(c = '\n')

/-- Class `[^,]`. -/
def goNotComma (c : Char) : Bool := !(c = ',')

/-- The class `[a-zA-Z0-9\\._\\-]` of the topic groups (letters, digits,
backslash, dot, underscore, hyphen — `\\` in the Go raw string is an escaped
backslash inside the class). -/
def topicChar (c : Char) : Bool :=
  ('a' ≤ c && c ≤ 'z') || ('A' ≤ c && c ≤ 'Z') || ('0' ≤ c && c ≤ '9') ||
    c = '\\' || c = '.' || c = '_' || c = '-'

/-- Header fingerprint of the Kafka 0.10.2.1 format. -/
def header0_10_2_1 : Regexp :=
  ⟨[Tok.lit "TOPIC", Tok.plus goIsSpace none, Tok.lit "PARTITION",
    Tok.plus goIsSpace none, Tok.lit "CURRENT-OFFSET", Tok.plus goIsSpace none,
    Tok.lit "LOG-END-OFFSET", Tok.plus goIsSpace none, Tok.lit "LAG",
    Tok.plus goIsSpace none, Tok.lit "CONSUMER-ID", Tok.plus goIsSpace none,
    Tok.lit "HOST", Tok.plus goIsSpace none, Tok.lit "CLIENT-ID"]⟩

/-- Line pattern of the Kafka 0.10.2.1 format. -/
def line0_10_2_1 : Regexp :=
  ⟨[Tok.plus topicChar (some "topic"), Tok.plus goIsSpace none,
    Tok.plus goIsDigit (some "partitionId"), Tok.plus goIsSpace none,
    Tok.plus goIsDigit (some "currentOffset"), Tok.plus goIsSpace none,
    Tok.plus goIsDigit none, Tok.plus goIsSpace none,
    Tok.plus goIsDigit (some "lag"), Tok.plus goIsSpace none,
    Tok.plus goNonSpace (some "consumerId"), Tok.plus goIsSpace none,
    Tok.plus goNonSpace (some "consumerAddress"), Tok.plus goIsSpace none,
    Tok.plus goNonSpace (some "clientId")]⟩

/-- Header fingerprint of the Kafka 0.10.0.1 format. -/
def header0_10_0_1 : Regexp :=
  ⟨[Tok.lit "GROUP", Tok.plus goIsSpace none, Tok.lit "TOPIC",
    Tok.plus goIsSpace none, Tok.lit "PARTITION", Tok.plus goIsSpace none,
    Tok.lit "CURRENT-OFFSET", Tok.plus goIsSpace none,
    Tok.lit "LOG-END-OFFSET", Tok.plus goIsSpace none, Tok.lit "LAG",
    Tok.plus goIsSpace none, Tok.lit "OWNER"]⟩

/-- Line pattern of the Kafka 0.10.0.1 format. -/
def line0_10_0_1 : Regexp :=
  ⟨[Tok.plus goDot none, Tok.plus goIsSpace none,
    Tok.plus topicChar (some "topic"), Tok.plus goIsSpace none,
    Tok.plus goIsDigit (some "partitionId"), Tok.plus goIsSpace none,
    Tok.plus goIsDigit (some "currentOffset"), Tok.plus goIsSpace none,
    Tok.plus goIsDigit none, Tok.plus goIsSpace none,
    Tok.plus goIsDigit (some "lag"), Tok.plus goIsSpace none,
    Tok.plus goNonSpace (some "clientId"), Tok.lit "_/",
    Tok.plus goDot (some "consumerAddress")]⟩

/-- Header fingerprint of the Kafka 0.9.0.1 format (a pure literal). -/
def header0_9_0_1 : Regexp :=
  ⟨[Tok.lit "GROUP, TOPIC, PARTITION, CURRENT OFFSET, LOG END OFFSET, LAG, OWNER"]⟩

/-- Line pattern of the Kafka 0.9.0.1 format. -/
def line0_9_0_1 : Regexp :=
  ⟨[Tok.plus goNotComma none, Tok.lit ", ",
    Tok.plus topicChar (some "topic"), Tok.lit ", ",
    Tok.plus goIsDigit (some "partitionId"), Tok.lit ", ",
    Tok.plus goIsDigit (some "currentOffset"), Tok.lit ", ",
    Tok.plus goIsDigit none, Tok.lit ", ",
    Tok.plus goIsDigit (some "lag"), Tok.lit ", ",
    Tok.plus goDot (some "clientId"), Tok.lit "_/",
    Tok.plus goDot (some "consumerAddress")]⟩

/-- Parser built by `mustBuildNewRegexpParser` for the 0.10.2.1 format (`log.Fatal` aborts
the process on a construction error, which is proved unreachable for the
built-in patterns). -/
def kafka0_10_2_1DescribeGroupParser : RegexpParser :=
  match newRegexpParser header0_10_2_1 line0_10_2_1 with
  | Except.ok p => p
  | Except.error _ => ⟨header0_10_2_1, line0_10_2_1, []⟩

/-- Parser built by `mustBuildNewRegexpParser` for the 0.10.0.1 format. -/
def kafka0_10_0_1DescribeGroupParser : RegexpParser :=
  match newRegexpParser header0_10_0_1 line0_10_0_1 with
  | Except.ok p => p
  | Except.error _ => ⟨header0_10_0_1, line0_10_0_1, []⟩

/-- Parser built by `mustBuildNewRegexpParser` for the 0.9.0.1 format. -/
def kafka0_9_0_1DescribeGroupParser : RegexpParser :=
  match newRegexpParser header0_9_0_1 line0_9_0_1 with
  | Except.ok p => p
  | Except.error _ => ⟨header0_9_0_1, line0_9_0_1, []⟩

/-! ### DelegatingParser and parseGroups -/

/-- Structure `DelegatingParser` (the fallback dispatcher). -/
structure DelegatingParser where
  Parsers : List RegexpParser

/-- The loop body of `DelegatingParser.Parse`: first nil-error result wins,
a panic aborts, and when every parser failed Go returns
`nil, errors.New("no parser could parse the output")`. -/
def delegateLoop : List RegexpParser → String → GoReturn (List PartitionInfo)
  | [], _ => GoReturn.ret [] (some "no parser could parse the output")
  | q :: qs, output =>
      match q.Parse output with
      | GoReturn.panic => GoReturn.panic
      | GoReturn.ret vs none => GoReturn.ret vs none
      | GoReturn.ret _ (some _) => delegateLoop qs output

/-- Method `DelegatingParser.Parse`. -/
def DelegatingParser.Parse (p : DelegatingParser) (output : String) :
    GoReturn (List PartitionInfo) :=
  delegateLoop p.Parsers output

/-- Function `DefaultParser()`: all known formats, oldest first. -/
def DefaultParser : DelegatingParser :=
  ⟨[kafka0_9_0_1DescribeGroupParser, kafka0_10_0_1DescribeGroupParser,
    kafka0_10_2_1DescribeGroupParser]⟩

/-! ### parseGroups -/

/-- The accumulation loop of `parseGroups`: keep every non-empty line. -/
def collectNonEmpty : List String → List String
  | [] => []
  | l :: ls =>
      if l != "" then l :: collectNonEmpty ls else collectNonEmpty ls

/-- Function `parseGroups` from kafka/parsing.go. -/
def parseGroups (output : String) : GoReturn (List String) :=
  if goContains output "java.lang.RuntimeException" then
    GoReturn.ret []
      (some ("Got runtime error when executing script. Output: " ++ output))
  else
    GoReturn.ret (collectNonEmpty (splitLines output)) none

/-! ## Helper lemmas -/

theorem splitLinesAux_ne_nil (cs : List Char) : ∀ acc, splitLinesAux cs acc ≠ [] := by
  induction cs with
  | nil => intro acc; simp [splitLinesAux]
  | cons c cs ih =>
      intro acc
      simp only [splitLinesAux]
      by_cases h : c = '\n'
      · rw [if_pos h]; simp
      · rw [if_neg h]; exact ih (c :: acc)

theorem splitLines_ne_nil (s : String) : splitLines s ≠ [] :=
  splitLinesAux_ne_nil s.data []

theorem matchToks_nil (s : List Char) : matchToks [] s = some (0, []) := rfl

theorem matchToks_lit (l : String) (rest : List Tok) (s : List Char) :
    matchToks (Tok.lit l :: rest) s =
      (if l.data.isPrefixOf s then
        Option.map (fun q => (l.data.length + q.1, q.2))
          (matchToks rest (s.drop l.data.length))
      else none) := rfl

theorem matchToks_plus (cls : Char → Bool) (name : Option String) (rest : List Tok)
    (s : List Char) :
    matchToks (Tok.plus cls name :: rest) s =
      tryLens (matchToks rest) name s (s.takeWhile cls).length := rfl

theorem string_mk_ne_empty (l : List Char) (h : l ≠ []) : String.mk l ≠ "" := by
  intro he
  exact h (congrArg String.data he)

/-- Every capture produced by a backtracking `+` attempt is non-empty
(assuming the continuation only produces non-empty captures). -/
theorem tryLens_caps_ne (ih : List Char → Option (Nat × List String))
    (hih : ∀ s r, ih s = some r → ∀ c ∈ r.2, c ≠ "")
    (name : Option String) (s : List Char) :
    ∀ (k : Nat), k ≤ s.length → ∀ r, tryLens ih name s k = some r →
      ∀ c ∈ r.2, c ≠ "" := by
  intro k
  induction k with
  | zero => intro _ r hr; simp [tryLens] at hr
  | succ k ihk =>
      intro hk r hr c hc
      simp only [tryLens] at hr
      split at hr
      next q hq =>
        cases hr
        cases name with
        | some nm =>
            simp only at hc
            rcases List.mem_cons.mp hc with h1 | h2
            · subst h1
              apply string_mk_ne_empty
              intro hnil
              have h0 : (s.take (k + 1)).length = 0 := by rw [hnil]; rfl
              rw [List.length_take] at h0
              omega
            · exact hih _ _ hq c h2
        | none => exact hih _ _ hq c hc
      next hq => exact ihk (by omega) r hr c hc

/-- Every capture produced by a token-sequence match is non-empty. -/
theorem matchToks_caps : ∀ (toks : List Tok) (s : List Char) (r : Nat × List String),
    matchToks toks s = some r → ∀ c ∈ r.2, c ≠ "" := by
  intro toks
  induction toks with
  | nil =>
      intro s r hr c hc
      rw [matchToks_nil] at hr
      cases hr
      simp at hc
  | cons tok rest ih =>
      intro s r hr c hc
      cases tok with
      | lit l =>
          rw [matchToks_lit] at hr
          split at hr
          · cases hm : matchToks rest (s.drop l.data.length) with
            | none => rw [hm] at hr; simp at hr
            | some q =>
                rw [hm] at hr
                simp only [Option.map_some'] at hr
                cases hr
                exact ih _ q hm c hc
          · simp at hr
      | plus cls name =>
          rw [matchToks_plus] at hr
          exact tryLens_caps_ne (matchToks rest) (fun s2 r2 h2 => ih s2 r2 h2)
            name s (s.takeWhile cls).length
            (List.Sublist.length_le (List.takeWhile_sublist cls)) r hr c hc

/-- Number of captures produced by a `+` attempt: one more than the
continuation's when the repetition is a named group. -/
theorem tryLens_len (n : Nat) (ih : List Char → Option (Nat × List String))
    (hih : ∀ s r, ih s = some r → r.2.length = n)
    (name : Option String) (s : List Char) :
    ∀ (k : Nat) (r : Nat × List String), tryLens ih name s k = some r →
      r.2.length = n + (if name.isSome then 1 else 0) := by
  intro k
  induction k with
  | zero => intro r hr; simp [tryLens] at hr
  | succ k ihk =>
      intro r hr
      simp only [tryLens] at hr
      split at hr
      next q hq =>
        cases hr
        cases name with
        | some nm => simp [hih _ _ hq]
        | none => simp [hih _ _ hq]
      next hq => exact ihk r hr

/-- A successful match captures exactly one string per named group of the
token sequence. -/
theorem matchToks_len : ∀ (toks : List Tok) (s : List Char) (r : Nat × List String),
    matchToks toks s = some r → r.2.length = (toks.filterMap Tok.nameOf).length := by
  intro toks
  induction toks with
  | nil =>
      intro s r hr
      rw [matchToks_nil] at hr
      cases hr
      rfl
  | cons tok rest ih =>
      intro s r hr
      cases tok with
      | lit l =>
          rw [matchToks_lit] at hr
          split at hr
          · cases hm : matchToks rest (s.drop l.data.length) with
            | none => rw [hm] at hr; simp at hr
            | some q =>
                rw [hm] at hr
                simp only [Option.map_some'] at hr
                cases hr
                simpa [List.filterMap_cons, Tok.nameOf] using ih _ q hm
          · simp at hr
      | plus cls name =>
          rw [matchToks_plus] at hr
          have := tryLens_len (rest.filterMap Tok.nameOf).length (matchToks rest)
            (fun s2 r2 h2 => ih s2 r2 h2) name s (s.takeWhile cls).length r hr
          cases name with
          | some nm => simpa [List.filterMap_cons, Tok.nameOf] using this
          | none => simpa [List.filterMap_cons, Tok.nameOf] using this

/-- Inversion for the leftmost search: the captures come from a match of the
token sequence at some suffix. -/
theorem searchFrom_inv : ∀ (toks : List Tok) (s w : List Char) (caps : List String),
    searchFrom toks s = some (w, caps) →
    ∃ s2 n, matchToks toks s2 = some (n, caps) := by
  intro toks s
  induction s with
  | nil =>
      intro w caps h
      simp only [searchFrom] at h
      split at h
      next q hq =>
        cases h
        exact ⟨[], q.1, by rw [hq]⟩
      next hq => simp at h
  | cons c t ih =>
      intro w caps h
      simp only [searchFrom] at h
      split at h
      next q hq =>
        cases h
        exact ⟨c :: t, q.1, by rw [hq]⟩
      next hq => exact ih w caps h

/-- Inversion for `FindStringSubmatch`: the result is the whole match
followed by the captures of a token-sequence match. -/
theorem goFindSubmatch_inv (r : Regexp) (line : String) (ms : List String)
    (h : goFindSubmatch r line = some ms) :
    ∃ w caps s2 n, ms = String.mk w :: caps ∧ matchToks r.toks s2 = some (n, caps) := by
  unfold goFindSubmatch at h
  cases hs : searchFrom r.toks line.data with
  | none => rw [hs] at h; simp at h
  | some q =>
      rw [hs] at h
      simp only [Option.map_some'] at h
      cases h
      obtain ⟨s2, n, hm⟩ := searchFrom_inv r.toks line.data q.1 q.2 (by rw [hs])
      exact ⟨q.1, q.2, s2, n, rfl, hm⟩

/-- The match slice has exactly one entry per name of `SubexpNames`. -/
theorem goFindSubmatch_len (r : Regexp) (line : String) (ms : List String)
    (h : goFindSubmatch r line = some ms) :
    ms.length = r.subexpNames.length := by
  obtain ⟨w, caps, s2, n, hms, hm⟩ := goFindSubmatch_inv r line ms h
  rw [hms]
  simp only [Regexp.subexpNames, List.length_cons]
  rw [matchToks_len r.toks s2 (n, caps) hm]

/-- Every entry of the match slice past index 0 is a capture, hence
non-empty. -/
theorem goFindSubmatch_tail_ne (r : Regexp) (line : String) (ms : List String)
    (h : goFindSubmatch r line = some ms) (i : Nat) (c : String)
    (hc : ms[i + 1]? = some c) : c ≠ "" := by
  obtain ⟨w, caps, s2, n, hms, hm⟩ := goFindSubmatch_inv r line ms h
  subst hms
  rw [List.getElem?_cons_succ] at hc
  exact matchToks_caps r.toks s2 (n, caps) hm c (List.getElem?_mem hc)

/-! ### Association-list (Go map) lemmas -/

theorem mapGet_insert (m : List (String × Nat)) (k : String) (v : Nat) (f : String) :
    mapGet (mapInsert m k v) f = if k = f then v else mapGet m f := by
  induction m with
  | nil => simp [mapInsert, mapGet]
  | cons kv rest ih =>
      obtain ⟨k1, v1⟩ := kv
      by_cases h : k1 = k
      · subst h
        by_cases h2 : k1 = f <;> simp [mapInsert, mapGet, h2]
      · by_cases h2 : k1 = f
        · subst h2
          have hkf : ¬(k = k1) := fun he => h he.symm
          simp [mapInsert, h, mapGet, hkf]
        · simp [mapInsert, h, mapGet, h2, ih]

theorem mapHas_insert (m : List (String × Nat)) (k : String) (v : Nat) (f : String) :
    mapHas (mapInsert m k v) f = if k = f then true else mapHas m f := by
  induction m with
  | nil => simp [mapInsert, mapHas]
  | cons kv rest ih =>
      obtain ⟨k1, v1⟩ := kv
      by_cases h : k1 = k
      · subst h
        by_cases h2 : k1 = f <;> simp [mapInsert, mapHas, h2]
      · by_cases h2 : k1 = f
        · subst h2
          have hkf : ¬(k = k1) := fun he => h he.symm
          simp [mapInsert, h, mapHas, hkf]
        · simp [mapInsert, h, mapHas, h2, ih]

/-- Keys inserted by `buildIndexAux` keep their old binding or receive an
index in `[i, i + names.length)`. -/
theorem buildIndexAux_spec : ∀ (names : List String) (i : Nat)
    (m : List (String × Nat)) (f : String),
    (mapHas (buildIndexAux names i m) f = mapHas m f ∧
     mapGet (buildIndexAux names i m) f = mapGet m f) ∨
    (mapHas (buildIndexAux names i m) f = true ∧
     i ≤ mapGet (buildIndexAux names i m) f ∧
     mapGet (buildIndexAux names i m) f < i + names.length) := by
  intro names
  induction names with
  | nil => intro i m f; left; exact ⟨rfl, rfl⟩
  | cons n ns ih =>
      intro i m f
      have hstep : buildIndexAux (n :: ns) i m = buildIndexAux ns (i + 1) (mapInsert m n i) := rfl
      rw [hstep]
      rcases ih (i + 1) (mapInsert m n i) f with ⟨h1, h2⟩ | ⟨h1, h2, h3⟩
      · by_cases hnf : n = f
        · right
          rw [h1, h2, mapHas_insert, mapGet_insert, if_pos hnf, if_pos hnf]
          refine ⟨rfl, le_refl i, ?_⟩
          simp only [List.length_cons]
          omega
        · left
          rw [h1, h2, mapHas_insert, mapGet_insert, if_neg hnf, if_neg hnf]
          exact ⟨rfl, rfl⟩
      · right
        refine ⟨h1, by omega, ?_⟩
        simp only [List.length_cons]
        omega

/-- A required field present in the index built from `"" :: names` has a
capture-group position in `[1, 1 + names.length)`. -/
theorem buildIndex_field (names : List String) (f : String) (hf : f ≠ "")
    (hhas : mapHas (buildIndex ("" :: names)) f = true) :
    1 ≤ mapGet (buildIndex ("" :: names)) f ∧
    mapGet (buildIndex ("" :: names)) f < 1 + names.length := by
  have hstep : buildIndex ("" :: names) = buildIndexAux names 1 [("", 0)] := rfl
  rw [hstep] at hhas ⊢
  rcases buildIndexAux_spec names 1 [("", 0)] f with ⟨h1, _⟩ | ⟨_, h2, h3⟩
  · rw [h1] at hhas
    simp only [mapHas] at hhas
    split at hhas
    next he => exact absurd he.symm hf
    next => simp [mapHas] at hhas
  · exact ⟨h2, h3⟩

/-- Inversion for a successful construction: the parser stores the given
patterns and the index contains every required field. -/
theorem newRegexpParser_ok (hdr ln : Regexp) (p : RegexpParser)
    (h : newRegexpParser hdr ln = Except.ok p) :
    p.header = hdr ∧ p.line = ln ∧ p.indexByName = buildIndex ln.subexpNames ∧
    ∀ f ∈ requiredFields, mapHas p.indexByName f = true := by
  simp only [newRegexpParser] at h
  split at h
  next f hfind => simp at h
  next hfind =>
      cases h
      refine ⟨rfl, rfl, rfl, ?_⟩
      intro f hf
      have hne := List.find?_eq_none.mp hfind f hf
      simpa using hne

/-- Inversion of `parseLine`: a non-panicking call means the line pattern
matched, every field was read off the match slice, both numeric fields went
through `parseLong`, and the returned Go error is nil. -/
theorem parseLine_inv (p : RegexpParser) (line : String) (info : PartitionInfo)
    (err : Option String) (h : p.parseLine line = some (info, err)) :
    err = none ∧
    ∃ ms coStr lagStr,
      goFindSubmatch p.line line = some ms ∧
      ms[mapGet p.indexByName "currentOffset"]? = some coStr ∧
      ms[mapGet p.indexByName "lag"]? = some lagStr ∧
      ms[mapGet p.indexByName "topic"]? = some info.topic ∧
      ms[mapGet p.indexByName "partitionId"]? = some info.partitionID ∧
      ms[mapGet p.indexByName "clientId"]? = some info.clientID ∧
      ms[mapGet p.indexByName "consumerAddress"]? = some info.consumerAddress ∧
      info.currentOffset = (parseLong coStr).1 ∧
      info.lag = (parseLong lagStr).1 := by
  simp only [RegexpParser.parseLine] at h
  cases hms : goFindSubmatch p.line line with
  | none =>
      rw [show goMatches p.line line = [] by simp [goMatches, hms]] at h
      simp at h
  | some ms =>
      rw [show goMatches p.line line = ms by simp [goMatches, hms]] at h
      split at h
      next coStr lagStr topicStr pidStr cidStr addrStr h1 h2 h3 h4 h5 h6 =>
        cases h
        exact ⟨rfl, ms, coStr, lagStr, rfl, h1, h2, h3, h4, h5, h6, rfl, rfl⟩
      next => simp at h

/-- For a parser that passed construction, a line on which the line pattern
matches is never aborted: `parseLine` reads all six fields off the match
slice and returns a record together with a nil error. -/
theorem parseLine_of_match (hdr ln : Regexp) (p : RegexpParser)
    (hp : newRegexpParser hdr ln = Except.ok p)
    (line : String) (ms : List String) (hm : goFindSubmatch ln line = some ms) :
    ∃ coStr lagStr topicStr pidStr cidStr addrStr,
      ms[mapGet p.indexByName "currentOffset"]? = some coStr ∧
      ms[mapGet p.indexByName "lag"]? = some lagStr ∧
      ms[mapGet p.indexByName "topic"]? = some topicStr ∧
      ms[mapGet p.indexByName "partitionId"]? = some pidStr ∧
      ms[mapGet p.indexByName "clientId"]? = some cidStr ∧
      ms[mapGet p.indexByName "consumerAddress"]? = some addrStr ∧
      p.parseLine line = some ({ topic := topicStr, partitionID := pidStr,
                                 currentOffset := (parseLong coStr).1,
                                 lag := (parseLong lagStr).1,
                                 clientID := cidStr,
                                 consumerAddress := addrStr }, none) := by
  obtain ⟨hh, hl, hidx, hhas⟩ := newRegexpParser_ok hdr ln p hp
  have hlen : ms.length = ln.subexpNames.length := goFindSubmatch_len ln line ms hm
  have hsub : ln.subexpNames = "" :: (ln.toks.filterMap Tok.nameOf) := rfl
  have key : ∀ f, f ∈ requiredFields → f ≠ "" →
      ∃ c, ms[mapGet p.indexByName f]? = some c := by
    intro f hf hfne
    have hfh : mapHas p.indexByName f = true := hhas f hf
    rw [hidx, hsub] at hfh
    have hb := buildIndex_field (ln.toks.filterMap Tok.nameOf) f hfne hfh
    have hlt : mapGet p.indexByName f < ms.length := by
      rw [hidx, hsub, hlen, hsub, List.length_cons]
      omega
    exact ⟨_, List.getElem?_eq_getElem hlt⟩
  obtain ⟨coStr, hco⟩ := key "currentOffset" (by decide) (by decide)
  obtain ⟨lagStr, hlag⟩ := key "lag" (by decide) (by decide)
  obtain ⟨topicStr, htopic⟩ := key "topic" (by decide) (by decide)
  obtain ⟨pidStr, hpid⟩ := key "partitionId" (by decide) (by decide)
  obtain ⟨cidStr, hcid⟩ := key "clientId" (by decide) (by decide)
  obtain ⟨addrStr, haddr⟩ := key "consumerAddress" (by decide) (by decide)
  refine ⟨coStr, lagStr, topicStr, pidStr, cidStr, addrStr,
    hco, hlag, htopic, hpid, hcid, haddr, ?_⟩
  simp only [RegexpParser.parseLine]
  rw [show goMatches p.line line = ms by simp [goMatches, hl, hm]]
  rw [hco, hlag, htopic, hpid, hcid, haddr]

/-- Inversion of the per-line loop: a returned (non-panicking) result always
carries a nil error, one record per data line, and every record comes from a
successful `parseLine` on one of the lines. -/
theorem parseLoop_ret (p : RegexpParser) : ∀ (ls : List String)
    (vs : List PartitionInfo) (err : Option String),
    parseLoop p ls = GoReturn.ret vs err →
    err = none ∧ vs.length = ls.length ∧
    ∀ info ∈ vs, ∃ l ∈ ls, p.parseLine l = some (info, none) := by
  intro ls
  induction ls with
  | nil =>
      intro vs err h
      simp only [parseLoop] at h
      cases h
      exact ⟨rfl, rfl, by simp⟩
  | cons l ls ih =>
      intro vs err h
      simp only [parseLoop] at h
      split at h
      next hpl => exact GoReturn.noConfusion h
      next info e hpl =>
          have := (parseLine_inv p l info (some e) hpl).1
          exact Option.noConfusion this
      next info hpl =>
          split at h
          next hrec => exact GoReturn.noConfusion h
          next vs2 err2 hrec =>
              injection h with h1 h2
              subst h1
              subst h2
              obtain ⟨he, hlen, hmem⟩ := ih vs2 err2 hrec
              refine ⟨he, by simp [hlen], ?_⟩
              intro info2 hinfo2
              rcases List.mem_cons.mp hinfo2 with h1 | h2
              · subst h1
                exact ⟨l, List.mem_cons_self l ls, hpl⟩
              · obtain ⟨l2, hl2, hpl2⟩ := hmem info2 h2
                exact ⟨l2, List.mem_cons_of_mem l hl2, hpl2⟩

/-- The only non-nil error `regexpParser.Parse` ever returns is the
header-mismatch error: the empty-output branch is unreachable and the
per-line loop never produces an error. -/
theorem Parse_err_msg (p : RegexpParser) (output : String) (vs : List PartitionInfo)
    (msg : String) (h : p.Parse output = GoReturn.ret vs (some msg)) :
    msg = "incorrect header" := by
  simp only [RegexpParser.Parse] at h
  split at h
  next heq => exact absurd heq (splitLines_ne_nil output)
  next hd tl heq =>
      split at h
      · have := (parseLoop_ret p tl vs (some msg) h).1
        exact Option.noConfusion this
      · cases h
        rfl

/-- Inversion of a successful `regexpParser.Parse`: the header matched and
the loop produced the records. -/
theorem Parse_ok_inv (p : RegexpParser) (output : String) (vs : List PartitionInfo)
    (h : p.Parse output = GoReturn.ret vs none) :
    ∃ hd tl, splitLines output = hd :: tl ∧ goMatchString p.header hd = true ∧
      parseLoop p tl = GoReturn.ret vs none := by
  simp only [RegexpParser.Parse] at h
  split at h
  next heq => exact absurd heq (splitLines_ne_nil output)
  next hd tl heq =>
      split at h
      next hh => exact ⟨hd, tl, heq, hh, h⟩
      next hh =>
          injection h with h1 h2
          exact Option.noConfusion h2

/-- When every parser of the list fails, the dispatcher loop returns the
aggregate failure with a nil record slice. -/
theorem delegateLoop_all_fail : ∀ (ps : List RegexpParser) (output : String),
    (∀ q ∈ ps, ∃ vs msg, q.Parse output = GoReturn.ret vs (some msg)) →
    delegateLoop ps output =
      GoReturn.ret [] (some "no parser could parse the output") := by
  intro ps output
  induction ps with
  | nil => intro _; rfl
  | cons q qs ih =>
      intro hall
      obtain ⟨vs, msg, hq⟩ := hall q (List.mem_cons_self q qs)
      simp only [delegateLoop, hq]
      exact ih (fun r hr => hall r (List.mem_cons_of_mem q hr))

/-- The dispatcher loop returns the first nil-error result, untouched, and
never consults the parsers after it. -/
theorem delegateLoop_first_success : ∀ (ps qs : List RegexpParser)
    (q : RegexpParser) (output : String) (vs : List PartitionInfo),
    (∀ r ∈ ps, ∃ vs2 msg, r.Parse output = GoReturn.ret vs2 (some msg)) →
    q.Parse output = GoReturn.ret vs none →
    delegateLoop (ps ++ q :: qs) output = GoReturn.ret vs none := by
  intro ps
  induction ps with
  | nil =>
      intro qs q output vs _ hq
      simp only [List.nil_append, delegateLoop, hq]
  | cons r rs ih =>
      intro qs q output vs hall hq
      obtain ⟨vs2, msg, hr⟩ := hall r (List.mem_cons_self r rs)
      simp only [List.cons_append, delegateLoop, hr]
      exact ih qs q output vs (fun r2 hr2 => hall r2 (List.mem_cons_of_mem r hr2)) hq

/-- The accumulation loop of `parseGroups` is exactly a filter keeping the
non-empty lines. -/
theorem collectNonEmpty_eq_filter : ∀ ls : List String,
    collectNonEmpty ls = ls.filter (fun l => l != "") := by
  intro ls
  induction ls with
  | nil => rfl
  | cons l ls ih =>
      simp only [collectNonEmpty, List.filter_cons]
      by_cases h : (l != "") = true
      · rw [if_pos h, if_pos h, ih]
      · rw [if_neg h, if_neg h, ih]

/-! ## Claim theorems -/

/-- Claim C1 (code bug): contrary to the contract, when the first line
matches the 0.10.2.1 header fingerprint but a subsequent line does not match
the line pattern, the code does not surface a distinguishable LineMismatch
failure: `parseLine` indexes the nil match slice out of range, which is a
runtime panic, and the panic also propagates through the default
dispatcher. -/
theorem unmatched_line_panics :
    kafka0_10_2_1DescribeGroupParser.Parse
      "TOPIC PARTITION CURRENT-OFFSET LOG-END-OFFSET LAG CONSUMER-ID HOST CLIENT-ID\n???" =
      GoReturn.panic ∧
    DefaultParser.Parse
      "TOPIC PARTITION CURRENT-OFFSET LOG-END-OFFSET LAG CONSUMER-ID HOST CLIENT-ID\n???" =
      GoReturn.panic := ⟨rfl, rfl⟩

/-- Claim C2: for every constructed format parser and every detail line on
which the line pattern matches, a failing base-10 64-bit conversion of the
captured currentOffset or lag substring does not abort the line: a
PartitionLagRecord is still produced carrying the sentinel -1 for exactly
the failed field (and the parsed value for a succeeding field, each
independently), `parseLine` returns a nil error, and hence no taxonomy error
is escalated to the caller. -/
theorem numeric_failure_degrades_to_sentinel (hdr ln : Regexp) (p : RegexpParser)
    (line : String) (ms : List String)
    (hp : newRegexpParser hdr ln = Except.ok p)
    (hm : goFindSubmatch ln line = some ms) :
    ∃ info coStr lagStr,
      p.parseLine line = some (info, none) ∧
      ms[mapGet p.indexByName "currentOffset"]? = some coStr ∧
      ms[mapGet p.indexByName "lag"]? = some lagStr ∧
      info.currentOffset = (parseLong coStr).1 ∧
      info.lag = (parseLong lagStr).1 ∧
      (goParseInt64 coStr = none → info.currentOffset = -1) ∧
      (goParseInt64 lagStr = none → info.lag = -1) ∧
      (∀ v, goParseInt64 coStr = some v → info.currentOffset = v) ∧
      (∀ v, goParseInt64 lagStr = some v → info.lag = v) := by
  obtain ⟨coStr, lagStr, topicStr, pidStr, cidStr, addrStr,
    hco, hlag, htopic, hpid, hcid, haddr, hpl⟩ :=
    parseLine_of_match hdr ln p hp line ms hm
  refine ⟨_, coStr, lagStr, hpl, hco, hlag, rfl, rfl, ?_, ?_, ?_, ?_⟩
  · intro hnone; simp [parseLong, hnone]
  · intro hnone; simp [parseLong, hnone]
  · intro v hv; simp [parseLong, hv]
  · intro v hv; simp [parseLong, hv]

/-- Witness for C2 at a concrete input: a currentOffset column of nineteen
nines overflows a 64-bit signed integer, so the conversion fails and the
record is produced with the sentinel, while the lag column still parses. -/
theorem numeric_failure_degrades_to_sentinel_witness :
    ∃ info : PartitionInfo,
      kafka0_10_2_1DescribeGroupParser.parseLine
        "orders 0 9999999999999999999 110 5 c1 /10.0.0.5 app" =
        some (info, none) ∧
      info.currentOffset = -1 ∧ info.lag = 5 := by
  obtain ⟨info, coStr, lagStr, hpl, hco, hlag, hcoeq, hlageq, hsent, hlsent, hval, hlval⟩ :=
    numeric_failure_degrades_to_sentinel header0_10_2_1 line0_10_2_1
      kafka0_10_2_1DescribeGroupParser
      "orders 0 9999999999999999999 110 5 c1 /10.0.0.5 app"
      ["orders 0 9999999999999999999 110 5 c1 /10.0.0.5 app", "orders", "0",
       "9999999999999999999", "5", "c1", "/10.0.0.5", "app"]
      rfl rfl
  have h0 : (["orders 0 9999999999999999999 110 5 c1 /10.0.0.5 app", "orders", "0",
      "9999999999999999999", "5", "c1", "/10.0.0.5", "app"] :
        List String)[mapGet kafka0_10_2_1DescribeGroupParser.indexByName
          "currentOffset"]? = some "9999999999999999999" := rfl
  have h1 : (["orders 0 9999999999999999999 110 5 c1 /10.0.0.5 app", "orders", "0",
      "9999999999999999999", "5", "c1", "/10.0.0.5", "app"] :
        List String)[mapGet kafka0_10_2_1DescribeGroupParser.indexByName
          "lag"]? = some "5" := rfl
  rw [h0] at hco
  rw [h1] at hlag
  cases hco
  cases hlag
  exact ⟨info, hpl, hsent rfl, hlval 5 rfl⟩

/-- Claim C5: the documented example — the 0.10.2.1 header followed by one
detail line — parses through the default dispatcher to exactly one record
with the expected six fields. -/
theorem example_output_parses_to_expected_record :
    DefaultParser.Parse
      "TOPIC PARTITION CURRENT-OFFSET LOG-END-OFFSET LAG CONSUMER-ID HOST CLIENT-ID\norders 0 105 110 5 consumer-1-abc /10.0.0.5 app-client-1" =
      GoReturn.ret [{ topic := "orders", partitionID := "0",
                      currentOffset := 105, lag := 5,
                      clientID := "app-client-1",
                      consumerAddress := "/10.0.0.5" }] none := rfl

/-- Claim C6: output containing the literal substring
java.lang.RuntimeException anywhere makes `parseGroups` fail immediately
with the runtime-error failure carrying the raw output, returning no group
identifiers, regardless of the rest of the output. -/
theorem runtime_exception_fails_group_parse (output : String)
    (h : goContains output "java.lang.RuntimeException" = true) :
    parseGroups output = GoReturn.ret []
      (some ("Got runtime error when executing script. Output: " ++ output)) := by
  simp [parseGroups, h]

/-- Witness for C6 at a concrete input. -/
theorem runtime_exception_fails_group_parse_witness :
    parseGroups "ok-group\njava.lang.RuntimeException: boom" = GoReturn.ret []
      (some ("Got runtime error when executing script. Output: " ++
        "ok-group\njava.lang.RuntimeException: boom")) :=
  runtime_exception_fails_group_parse "ok-group\njava.lang.RuntimeException: boom" rfl

/-- Claim C7: on output free of the runtime-fault substring, `parseGroups`
succeeds and returns exactly the non-empty lines of the input, verbatim, in
original input-line order (a sublist of the split), with count equal to the
number of non-empty lines. -/
theorem group_parse_returns_nonempty_lines (output : String)
    (h : goContains output "java.lang.RuntimeException" = false) :
    parseGroups output =
      GoReturn.ret ((splitLines output).filter (fun l => l != "")) none ∧
    ((splitLines output).filter (fun l => l != "")).length =
      (splitLines output).countP (fun l => l != "") ∧
    List.Sublist ((splitLines output).filter (fun l => l != ""))
      (splitLines output) := by
  refine ⟨?_, ?_, List.filter_sublist _⟩
  · simp only [parseGroups, h, Bool.false_eq_true, if_false]
    rw [collectNonEmpty_eq_filter]
  · exact (List.countP_eq_length_filter _ _).symm

/-- Witness for C7 at a concrete input with blank lines interspersed. -/
theorem group_parse_returns_nonempty_lines_witness :
    parseGroups "g1\n\ng2\n" = GoReturn.ret ["g1", "g2"] none := by
  have h := (group_parse_returns_nonempty_lines "g1\n\ng2\n" rfl).1
  rw [h]
  rfl

/-- Claim C3: the fallback dispatcher tries its parsers in list order
against the identical output, returns the first nil-error result immediately
(the parsers after it are never consulted and cannot change the result), and
when every parser fails it returns the single aggregate failure together with
an empty record slice. -/
theorem delegating_parser_first_success_or_aggregate (output : String) :
    (∀ ps : List RegexpParser,
       (∀ q ∈ ps, ∃ vs msg, q.Parse output = GoReturn.ret vs (some msg)) →
       DelegatingParser.Parse ⟨ps⟩ output =
         GoReturn.ret [] (some "no parser could parse the output")) ∧
    (∀ (ps qs : List RegexpParser) (q : RegexpParser) (vs : List PartitionInfo),
       (∀ r ∈ ps, ∃ vs2 msg, r.Parse output = GoReturn.ret vs2 (some msg)) →
       q.Parse output = GoReturn.ret vs none →
       DelegatingParser.Parse ⟨ps ++ q :: qs⟩ output = GoReturn.ret vs none) := by
  constructor
  · intro ps hall
    exact delegateLoop_all_fail ps output hall
  · intro ps qs q vs hall hq
    exact delegateLoop_first_success ps qs q output vs hall hq

/-- Witness for C3 at a concrete input: the two older formats reject the
0.10.2.1 example output with a header mismatch, and the dispatcher returns
the third parser's records. -/
theorem delegating_parser_first_success_or_aggregate_witness :
    DelegatingParser.Parse
      ⟨[kafka0_9_0_1DescribeGroupParser, kafka0_10_0_1DescribeGroupParser] ++
        kafka0_10_2_1DescribeGroupParser :: []⟩
      "TOPIC PARTITION CURRENT-OFFSET LOG-END-OFFSET LAG CONSUMER-ID HOST CLIENT-ID\norders 0 105 110 5 consumer-1-abc /10.0.0.5 app-client-1" =
      GoReturn.ret [{ topic := "orders", partitionID := "0",
                      currentOffset := 105, lag := 5,
                      clientID := "app-client-1",
                      consumerAddress := "/10.0.0.5" }] none := by
  apply (delegating_parser_first_success_or_aggregate _).2
  · intro r hr
    rcases List.mem_cons.mp hr with h1 | h2
    · subst h1
      exact ⟨[], "incorrect header", rfl⟩
    · rcases List.mem_cons.mp h2 with h3 | h4
      · subst h3
        exact ⟨[], "incorrect header", rfl⟩
      · simp at h4
  · rfl

/-- Claim C4: construction fails exactly when one of the six required field
names is absent from the line pattern's named capture groups (a
construction-time, not parse-time, check), and each of the three built-in
format parsers constructs successfully with all six names in its index. -/
theorem construction_validates_required_fields :
    (∀ hdr ln : Regexp,
       (∃ p, newRegexpParser hdr ln = Except.ok p) ↔
       ∀ f ∈ requiredFields, mapHas (buildIndex ln.subexpNames) f = true) ∧
    (∃ p, newRegexpParser header0_9_0_1 line0_9_0_1 = Except.ok p ∧
       ∀ f ∈ requiredFields, mapHas p.indexByName f = true) ∧
    (∃ p, newRegexpParser header0_10_0_1 line0_10_0_1 = Except.ok p ∧
       ∀ f ∈ requiredFields, mapHas p.indexByName f = true) ∧
    (∃ p, newRegexpParser header0_10_2_1 line0_10_2_1 = Except.ok p ∧
       ∀ f ∈ requiredFields, mapHas p.indexByName f = true) := by
  refine ⟨?_, ⟨kafka0_9_0_1DescribeGroupParser, rfl, by decide⟩,
    ⟨kafka0_10_0_1DescribeGroupParser, rfl, by decide⟩,
    ⟨kafka0_10_2_1DescribeGroupParser, rfl, by decide⟩⟩
  intro hdr ln
  constructor
  · rintro ⟨p, hp⟩
    obtain ⟨_, _, hidx, hhas⟩ := newRegexpParser_ok hdr ln p hp
    intro f hf
    rw [← hidx]
    exact hhas f hf
  · intro hall
    have hfind : requiredFields.find?
        (fun f => !(mapHas (buildIndex ln.subexpNames) f)) = none := by
      apply List.find?_eq_none.mpr
      intro f hf
      simp [hall f hf]
    refine ⟨⟨hdr, ln, buildIndex ln.subexpNames⟩, ?_⟩
    simp only [newRegexpParser]
    rw [hfind]

/-- Witness for C4: the characterization applied to the 0.10.2.1 patterns. -/
theorem construction_validates_required_fields_witness :
    ∃ p, newRegexpParser header0_10_2_1 line0_10_2_1 = Except.ok p :=
  (construction_validates_required_fields.1 header0_10_2_1 line0_10_2_1).mpr
    (by decide)

/-- Claim C8: for a constructed parser, every record of a successfully
returned sequence has a non-empty topic; each numeric field equals
`parseLong` of the substring actually captured on its line — the parsed
value when conversion succeeds and the sentinel -1 when it fails — and no
record is dropped: the sequence has exactly one record per data line. -/
theorem returned_records_invariant (hdr ln : Regexp) (p : RegexpParser)
    (output : String) (infos : List PartitionInfo)
    (hp : newRegexpParser hdr ln = Except.ok p)
    (h : p.Parse output = GoReturn.ret infos none) :
    infos.length = (splitLines output).length - 1 ∧
    ∀ info ∈ infos,
      info.topic ≠ "" ∧
      ∃ line ∈ splitLines output, ∃ ms coStr lagStr,
        goFindSubmatch ln line = some ms ∧
        ms[mapGet p.indexByName "currentOffset"]? = some coStr ∧
        ms[mapGet p.indexByName "lag"]? = some lagStr ∧
        info.currentOffset = (parseLong coStr).1 ∧
        info.lag = (parseLong lagStr).1 ∧
        (goParseInt64 coStr = none → info.currentOffset = -1) ∧
        (∀ v, goParseInt64 coStr = some v → info.currentOffset = v) ∧
        (goParseInt64 lagStr = none → info.lag = -1) ∧
        (∀ v, goParseInt64 lagStr = some v → info.lag = v) := by
  obtain ⟨hd, tl, hsl, hmatch, hloop⟩ := Parse_ok_inv p output infos h
  obtain ⟨_, hlen, hmem⟩ := parseLoop_ret p tl infos none hloop
  obtain ⟨hhh, hl, hidx, hhas⟩ := newRegexpParser_ok hdr ln p hp
  have hsub : ln.subexpNames = "" :: (ln.toks.filterMap Tok.nameOf) := rfl
  constructor
  · rw [hsl, List.length_cons, hlen]
    omega
  · intro info hinfo
    obtain ⟨l, hltl, hpl⟩ := hmem info hinfo
    obtain ⟨_, ms, coStr, lagStr, hms, hco, hlag2, htop, hpid, hcid, haddr,
      hcoeq, hlageq⟩ := parseLine_inv p l info none hpl
    rw [hl] at hms
    have htopidx : 1 ≤ mapGet p.indexByName "topic" := by
      have hfh : mapHas p.indexByName "topic" = true := hhas "topic" (by decide)
      rw [hidx, hsub] at hfh ⊢
      exact (buildIndex_field (ln.toks.filterMap Tok.nameOf) "topic"
        (by decide) hfh).1
    constructor
    · have hidx2 : mapGet p.indexByName "topic" =
          (mapGet p.indexByName "topic" - 1) + 1 := by omega
      rw [hidx2] at htop
      exact goFindSubmatch_tail_ne ln l ms hms _ info.topic htop
    · refine ⟨l, ?_, ms, coStr, lagStr, hms, hco, hlag2, hcoeq, hlageq,
        ?_, ?_, ?_, ?_⟩
      · rw [hsl]
        exact List.mem_cons_of_mem hd hltl
      · intro hnone; rw [hcoeq]; simp [parseLong, hnone]
      · intro v hv; rw [hcoeq]; simp [parseLong, hv]
      · intro hnone; rw [hlageq]; simp [parseLong, hnone]
      · intro v hv; rw [hlageq]; simp [parseLong, hv]

/-- Witness for C8 at a concrete input: the example output yields exactly one
record per data line and that record's topic is non-empty. -/
theorem returned_records_invariant_witness :
    ([{ topic := "orders", partitionID := "0", currentOffset := 105, lag := 5,
        clientID := "app-client-1",
        consumerAddress := "/10.0.0.5" }] : List PartitionInfo).length =
      (splitLines "TOPIC PARTITION CURRENT-OFFSET LOG-END-OFFSET LAG CONSUMER-ID HOST CLIENT-ID\norders 0 105 110 5 consumer-1-abc /10.0.0.5 app-client-1").length - 1 ∧
    ({ topic := "orders", partitionID := "0", currentOffset := 105, lag := 5,
       clientID := "app-client-1",
       consumerAddress := "/10.0.0.5" } : PartitionInfo).topic ≠ "" := by
  have h := returned_records_invariant header0_10_2_1 line0_10_2_1
    kafka0_10_2_1DescribeGroupParser
    "TOPIC PARTITION CURRENT-OFFSET LOG-END-OFFSET LAG CONSUMER-ID HOST CLIENT-ID\norders 0 105 110 5 consumer-1-abc /10.0.0.5 app-client-1"
    [{ topic := "orders", partitionID := "0", currentOffset := 105, lag := 5,
       clientID := "app-client-1", consumerAddress := "/10.0.0.5" }]
    rfl rfl
  exact ⟨h.1, (h.2 _ (List.mem_cons_self _ _)).1⟩

/-- Counterexample to claim C9 as stated: the empty string — output with no
lines of content — is not rejected with the empty-output error; its sole
(empty) line is treated as the header candidate, so it is rejected with the
incorrect-header error instead. -/
theorem empty_output_error_never_returned_cex :
    kafka0_10_2_1DescribeGroupParser.Parse "" =
      GoReturn.ret [] (some "incorrect header") ∧
    "incorrect header" ≠ "empty output" := ⟨rfl, by decide⟩

/-- Claim C9 (amended): splitting always yields at least one line, so the
empty-output rejection is unreachable; the per-format rejection signal that
the fallback dispatcher actually consumes is the header-mismatch error — the
only non-nil error `regexpParser.Parse` ever returns — and in particular
every built-in parser rejects the empty string with it. -/
theorem parse_rejection_is_header_mismatch :
    (∀ (p : RegexpParser) (output : String) (vs : List PartitionInfo)
       (msg : String),
       p.Parse output = GoReturn.ret vs (some msg) → msg = "incorrect header") ∧
    kafka0_9_0_1DescribeGroupParser.Parse "" =
      GoReturn.ret [] (some "incorrect header") ∧
    kafka0_10_0_1DescribeGroupParser.Parse "" =
      GoReturn.ret [] (some "incorrect header") ∧
    kafka0_10_2_1DescribeGroupParser.Parse "" =
      GoReturn.ret [] (some "incorrect header") :=
  ⟨Parse_err_msg, rfl, rfl, rfl⟩

/-- Witness for the amended C9 at a concrete input. -/
theorem parse_rejection_is_header_mismatch_witness :
    kafka0_10_2_1DescribeGroupParser.Parse "" =
      GoReturn.ret [] (some "incorrect header") ∧
    ("incorrect header" : String) = "incorrect header" :=
  ⟨rfl, parse_rejection_is_header_mismatch.1 kafka0_10_2_1DescribeGroupParser
    "" [] "incorrect header" rfl⟩

/-- Claim C10: splitting on the line terminator yields at least one
(possibly empty) line for every input, so `regexpParser.Parse` never returns
the empty-output error; in particular each built-in parser rejects the empty
string with the incorrect-header error, its sole empty line being the failed
header candidate. -/
theorem split_nonempty_no_empty_output_error :
    (∀ output : String, 1 ≤ (splitLines output).length) ∧
    (∀ (p : RegexpParser) (output : String) (vs : List PartitionInfo)
       (msg : String),
       p.Parse output = GoReturn.ret vs (some msg) → msg ≠ "empty output") ∧
    kafka0_9_0_1DescribeGroupParser.Parse "" =
      GoReturn.ret [] (some "incorrect header") ∧
    kafka0_10_0_1DescribeGroupParser.Parse "" =
      GoReturn.ret [] (some "incorrect header") ∧
    kafka0_10_2_1DescribeGroupParser.Parse "" =
      GoReturn.ret [] (some "incorrect header") := by
  refine ⟨?_, ?_, rfl, rfl, rfl⟩
  · intro output
    cases hsl : splitLines output with
    | nil => exact absurd hsl (splitLines_ne_nil output)
    | cons hd tl => simp
  · intro p output vs msg h
    rw [Parse_err_msg p output vs msg h]
    decide

/-- Witness for C10 at a concrete input. -/
theorem split_nonempty_no_empty_output_error_witness :
    kafka0_9_0_1DescribeGroupParser.Parse "" =
      GoReturn.ret [] (some "incorrect header") ∧
    ("incorrect header" : String) ≠ "empty output" :=
  ⟨rfl, split_nonempty_no_empty_output_error.2.1 kafka0_9_0_1DescribeGroupParser
    "" [] "incorrect header" rfl⟩
